import Mathlib

/-!
A shallow embedding of `main.py` of the resume-summarizer repository.

Strings are modelled as `List Char`.  Each Python regular-expression pass of
the source is modelled by a character-list scanner implementing the exact
leftmost, non-overlapping semantics of `re.sub` / `re.split` / `re.finditer`
for the concrete pattern appearing in the source.  Scanners that may skip
more than one character per step take a fuel argument (so that every
definition is structurally recursive and kernel-reducible); every wrapper
passes fuel at least the input length, and each fueled step consumes at
least one input character, so the fuel never runs out on the wrapped calls.

Library effects are made explicit: fallible library calls are `Except`
values supplied through small environment structures, `st.error` calls are
collected in an output list, and the single model request of
`summarize_with_gemini` is returned in a request log.
-/

namespace ResumeSummarizer

/-- Python's (unicode) whitespace class: the characters `str.isspace` accepts
and the `\s` class of the `re` module matches for `str` patterns. -/
def isPySpace (c : Char) : Bool :=
  let n := c.toNat
  (9 ≤ n && n ≤ 13) || (28 ≤ n && n ≤ 32) || n = 133 || n = 160 || n = 0x1680 ||
    (0x2000 ≤ n && n ≤ 0x200A) || n = 0x2028 || n = 0x2029 || n = 0x202F ||
    n = 0x205F || n = 0x3000

/-- Python's `\w` class, restricted to ASCII (the texts this program scans
with `\w` have been ASCII-cleaned or are JSON keys). -/
def isWordChar (c : Char) : Bool := c.isAlphanum || c = '_'

def isAsciiDigit (c : Char) : Bool := '0' ≤ c && c ≤ '9'

def isLowerAlpha (c : Char) : Bool := 'a' ≤ c && c ≤ 'z'

/-- The `[0-9A-Fa-f]` class. -/
def isHexDig (c : Char) : Bool :=
  isAsciiDigit c || ('a' ≤ c && c ≤ 'f') || ('A' ≤ c && c ≤ 'F')

/-- Python `s.startswith(pat)`: `pat` is an initial segment of the list. -/
def begins : List Char → List Char → Bool
  | [], _ => true
  | _ :: _, [] => false
  | p :: ps, c :: cs => p = c && begins ps cs

/-- Python `s.endswith(pat)`. -/
def ends (pat l : List Char) : Bool := begins pat.reverse l.reverse

/-- Python `pat in s` (substring containment). -/
def hasSub (pat : List Char) : List Char → Bool
  | [] => begins pat []
  | c :: cs => begins pat (c :: cs) || hasSub pat cs

/-- Python `str.replace(pat, repl)` (also `re.sub` with a literal pattern):
leftmost, non-overlapping.  The pattern is `p :: ps`, never empty here. -/
def replaceLitF (p : Char) (ps repl : List Char) : Nat → List Char → List Char
  | 0, l => l
  | _ + 1, [] => []
  | fuel + 1, c :: cs =>
    if begins (p :: ps) (c :: cs) then
      repl ++ replaceLitF p ps repl fuel (cs.drop ps.length)
    else
      c :: replaceLitF p ps repl fuel cs

def replaceLit (p : Char) (ps repl l : List Char) : List Char :=
  replaceLitF p ps repl l.length l

/-- `re.sub(C+, " ", l)` for a one-character class `C`: every maximal run of
characters satisfying `p` becomes a single space. -/
def runsToSpaceF (p : Char → Bool) : Nat → List Char → List Char
  | 0, l => l
  | _ + 1, [] => []
  | fuel + 1, c :: cs =>
    if p c then ' ' :: runsToSpaceF p fuel (cs.dropWhile p)
    else c :: runsToSpaceF p fuel cs

def runsToSpace (p : Char → Bool) (l : List Char) : List Char :=
  runsToSpaceF p l.length l

/-- Python `str.strip()`. -/
def stripChars (l : List Char) : List Char :=
  ((l.dropWhile isPySpace).reverse.dropWhile isPySpace).reverse

/-- Python `str.split("\n")`. -/
def splitNl : List Char → List (List Char)
  | [] => [[]]
  | c :: cs =>
    if c = '\n' then [] :: splitNl cs
    else
      match splitNl cs with
      | [] => [[c]]
      | l :: ls => (c :: l) :: ls

/-- Python `"\n".join`. -/
def intercalateNl : List (List Char) → List Char
  | [] => []
  | [l] => l
  | l :: l' :: ls => l ++ '\n' :: intercalateNl (l' :: ls)

/-! ### `clean_text` (nested inside `extract_text`)

The three `xml_artifacts` patterns with scanners of their own; note that
`r"\u0001-\u0008"` and the similar patterns contain no brackets, so `re`
reads each of them as a literal three-character sequence, not a class. -/

/-- `re.sub(r"_x[0-9A-Fa-f]{4}_", "", text)`. -/
def stripHexArtifactsF : Nat → List Char → List Char
  | 0, l => l
  | _ + 1, [] => []
  | fuel + 1, c :: cs =>
    match c, cs with
    | '_', 'x' :: a :: b :: d :: e :: '_' :: rest =>
      if isHexDig a && isHexDig b && isHexDig d && isHexDig e then
        stripHexArtifactsF fuel rest
      else '_' :: stripHexArtifactsF fuel cs
    | _, _ => c :: stripHexArtifactsF fuel cs

def stripHexArtifacts (l : List Char) : List Char := stripHexArtifactsF l.length l

/-- The closing `>` of `<[^>]+>`: the remainder after the first `>`. -/
def afterGt : List Char → Option (List Char)
  | [] => Option.none
  | c :: cs => if c = '>' then some cs else afterGt cs

/-- `re.sub(r"<[^>]+>", "", text)`: a `<`, at least one non-`>`, then `>`. -/
def stripTagsF : Nat → List Char → List Char
  | 0, l => l
  | _ + 1, [] => []
  | fuel + 1, c :: cs =>
    if c = '<' then
      match cs with
      | d :: ds =>
        if d = '>' then '<' :: stripTagsF fuel cs
        else
          match afterGt ds with
          | some rest => stripTagsF fuel rest
          | Option.none => '<' :: stripTagsF fuel cs
      | [] => ['<']
    else c :: stripTagsF fuel cs

def stripTags (l : List Char) : List Char := stripTagsF l.length l

/-- `re.sub(r"&\w+;", "", text)`: `&`, at least one word character, `;`. -/
def stripEntitiesF : Nat → List Char → List Char
  | 0, l => l
  | _ + 1, [] => []
  | fuel + 1, c :: cs =>
    if c = '&' then
      match cs with
      | d :: ds =>
        if isWordChar d then
          match ds.dropWhile isWordChar with
          | e :: rest =>
            if e = ';' then stripEntitiesF fuel rest
            else '&' :: stripEntitiesF fuel cs
          | [] => '&' :: stripEntitiesF fuel cs
        else '&' :: stripEntitiesF fuel cs
      | [] => ['&']
    else c :: stripEntitiesF fuel cs

def stripEntities (l : List Char) : List Char := stripEntitiesF l.length l

/-- The match attempt of `-\s*Page\s*\d+\s*-` (IGNORECASE) after its leading
`-`: whitespace, "page" case-insensitively, whitespace, at least one digit,
whitespace, `-`; yields the remainder after the closing `-`. -/
def matchPageDash (cs : List Char) : Option (List Char) :=
  match cs.dropWhile isPySpace with
  | p :: a :: g :: e :: r2 =>
    if p.toLower = 'p' ∧ a.toLower = 'a' ∧ g.toLower = 'g' ∧ e.toLower = 'e' then
      match r2.dropWhile isPySpace with
      | d :: _ =>
        if isAsciiDigit d then
          match ((r2.dropWhile isPySpace).dropWhile isAsciiDigit).dropWhile isPySpace with
          | h :: rest => if h = '-' then some rest else Option.none
          | [] => Option.none
        else Option.none
      | [] => Option.none
    else Option.none
  | _ => Option.none

/-- `re.sub(r"-\s*Page\s*\d+\s*-", " ", text, flags=re.IGNORECASE)`. -/
def pageBreak1F : Nat → List Char → List Char
  | 0, l => l
  | _ + 1, [] => []
  | fuel + 1, c :: cs =>
    if c = '-' then
      match matchPageDash cs with
      | some rest => ' ' :: pageBreak1F fuel rest
      | Option.none => '-' :: pageBreak1F fuel cs
    else c :: pageBreak1F fuel cs

def pageBreak1 (l : List Char) : List Char := pageBreak1F l.length l

/-- The match attempt of `\[page \d+\]` (IGNORECASE) after its leading `[`. -/
def matchPageBracket (cs : List Char) : Option (List Char) :=
  match cs with
  | p :: a :: g :: e :: sp :: r =>
    if p.toLower = 'p' ∧ a.toLower = 'a' ∧ g.toLower = 'g' ∧ e.toLower = 'e' ∧ sp = ' ' then
      match r with
      | d :: _ =>
        if isAsciiDigit d then
          match r.dropWhile isAsciiDigit with
          | b :: rest => if b = ']' then some rest else Option.none
          | [] => Option.none
        else Option.none
      | [] => Option.none
    else Option.none
  | _ => Option.none

/-- `re.sub(r"\[page \d+\]", " ", text, flags=re.IGNORECASE)`. -/
def pageBreak2F : Nat → List Char → List Char
  | 0, l => l
  | _ + 1, [] => []
  | fuel + 1, c :: cs =>
    if c = '[' then
      match matchPageBracket cs with
      | some rest => ' ' :: pageBreak2F fuel rest
      | Option.none => '[' :: pageBreak2F fuel cs
    else c :: pageBreak2F fuel cs

def pageBreak2 (l : List Char) : List Char := pageBreak2F l.length l

/-- `clean_text` up to (excluding) the duplicate-line-removal step: the
`xml_artifacts` passes, the `whitespace_patterns` passes, the
`page_break_indicators` passes, the space-collapsing pass and the strip,
in source order. -/
def cleanTextPre (text : List Char) : List Char :=
  -- xml_artifacts
  let t := stripHexArtifacts text
  let t := stripTags t
  let t := stripEntities t
  let t := replaceLit (Char.ofNat 0) [] [] t
  let t := replaceLit (Char.ofNat 1) ['-', Char.ofNat 8] [] t
  let t := replaceLit (Char.ofNat 11) ['-', Char.ofNat 12] [] t
  let t := replaceLit (Char.ofNat 14) ['-', Char.ofNat 31] [] t
  -- whitespace_patterns
  let t := runsToSpace (fun c => c = '\t') t
  let t := replaceLit '\r' ['\n'] [' '] t
  let t := replaceLit '\r' [] [' '] t
  let t := runsToSpace (fun c => c = '\n') t
  let t := replaceLit (Char.ofNat 12) [] [' '] t
  let t := replaceLit (Char.ofNat 11) [] [' '] t
  let t := replaceLit (Char.ofNat 0x200B) [] [' '] t
  let t := replaceLit (Char.ofNat 0xA0) [] [' '] t
  let t := replaceLit (Char.ofNat 0x2000) ['-', Char.ofNat 0x200F] [' '] t
  let t := replaceLit (Char.ofNat 0x2028) ['-', Char.ofNat 0x2029] [' '] t
  -- page_break_indicators
  let t := pageBreak1 t
  let t := pageBreak2 t
  let t := replaceLit (Char.ofNat 12) [] [' '] t
  let t := replaceLit (Char.ofNat 12) [] [' '] t
  -- collapse space runs, trim
  let t := runsToSpace (fun c => c = ' ') t
  stripChars t

/-- The duplicate-line-removal loop at the end of `clean_text`: a line is
kept (stripped) when its stripped form is non-blank and not seen before. -/
def dedupLinesGo (seen : List (List Char)) : List (List Char) → List (List Char)
  | [] => []
  | line :: rest =>
    let cl := stripChars line
    if cl ≠ [] ∧ cl ∉ seen then cl :: dedupLinesGo (cl :: seen) rest
    else dedupLinesGo seen rest

def dedupLines (t : List Char) : List Char :=
  intercalateNl (dedupLinesGo [] (splitNl t))

/-- `clean_text` from `extract_text` in main.py. -/
def clean_text (text : List Char) : List Char :=
  dedupLines (cleanTextPre text)

example : stripHexArtifacts "_x00_x0041_ and _x0041_x0042_".toList
    = "_x00 and x0042_".toList := by decide
example : stripTags "<<a> <> b<c".toList = " <> b<c".toList := by decide
example : stripEntities "&amp; & ; &x-;".toList = " & ; &x-;".toList := by decide
example : pageBreak1 "- Page 1 - Page 2 -".toList = "  Page 2 -".toList := by decide
example : pageBreak2 "[PAGE 3] [page 4]".toList = "   ".toList := by decide
example : clean_text "a\tb\n\nc   d\u0000".toList = "a b c d".toList := by decide

example : splitNl "a\nbc\n".toList = ["a".toList, "bc".toList, []] := by decide
example : intercalateNl ["a".toList, [], "c".toList] = "a\n\nc".toList := by decide
example : replaceLit '{' "\x7bA\x7d\x7d".toList "v".toList
    "x\x7b\x7bA\x7d\x7dy\x7b\x7bA\x7d\x7d".toList = "xvyv".toList := by
  decide
example : runsToSpace (fun c => c = '\n') "a\n\n\nb\nc".toList = "a b c".toList := by decide
example : hasSub "ab".toList "xaab".toList = true := by decide
example : ends ".pdf".toList "a.pdf".toList = true := by decide

/-! ### `apply_bold_markdown` and the python-pptx model -/

/-- The non-greedy closing `**` of `re` pattern `\*\*.*?\*\*`: the characters
before the first `**` of the list (`.` matches none of them, so a newline
before the closing `**` fails the attempt) and the remainder after it. -/
def findClose : List Char → Option (List Char × List Char)
  | [] => Option.none
  | [_] => Option.none
  | c :: c2 :: cs =>
    if c = '*' ∧ c2 = '*' then some ([], cs)
    else if c = '\n' then Option.none
    else (findClose (c2 :: cs)).map fun pr => (c :: pr.1, pr.2)

/-- `re.split(r"(\*\*.*?\*\*)", text)`, each piece marked `true` exactly when
it is a captured match.  `acc` holds (reversed) the pending unmatched piece. -/
def boldScanF : Nat → List Char → List Char → List (List Char × Bool)
  | 0, acc, l => [(acc.reverse ++ l, false)]
  | _ + 1, acc, [] => [(acc.reverse, false)]
  | fuel + 1, acc, c :: cs =>
    if c = '*' ∧ cs.head? = some '*' then
      match findClose cs.tail with
      | some (inner, rest) =>
        (acc.reverse, false) :: ('*' :: '*' :: (inner ++ ['*', '*']), true) ::
          boldScanF fuel [] rest
      | Option.none => boldScanF fuel (c :: acc) cs
    else boldScanF fuel (c :: acc) cs

/-- The pieces of `re.split(r"(\*\*.*?\*\*)", text)` with their match marks. -/
def boldScanMarked (text : List Char) : List (List Char × Bool) :=
  boldScanF (text.length + 1) [] text

/-- The pieces of `re.split(r"(\*\*.*?\*\*)", text)`, as the source sees them. -/
def boldParts (text : List Char) : List (List Char) :=
  (boldScanMarked text).map Prod.fst

/-- A python-pptx run, with the font attributes this program touches.  All
font attributes start as `None` in a fresh run. -/
structure Run where
  text : List Char
  bold : Option Bool := Option.none
  size : Option Nat := Option.none
  color : Option (Nat × Nat × Nat) := Option.none
  fontName : Option (List Char) := Option.none
deriving DecidableEq

/-- `part.startswith("**") and part.endswith("**")` from `apply_bold_markdown`
(Python's overlapping semantics: the two-character `"**"` and the
three-character `"***"` pass this test too). -/
def wrapped (p : List Char) : Bool :=
  begins ['*', '*'] p && begins ['*', '*'] p.reverse

/-- Python `part[2:-2]`. -/
def dropWrap (p : List Char) : List Char :=
  (p.drop 2).take (p.length - 4)

/-- `apply_bold_markdown(paragraph, text)`: the runs the function adds to the
paragraph, in order.  `font.bold` is set to `True` only on the parts that
start and end with `**`; elsewhere it keeps the `None` default. -/
def apply_bold_markdown (text : List Char) : List Run :=
  (boldParts text).map fun p =>
    if wrapped p then { text := dropWrap p, bold := some true }
    else { text := p }

/-- A python-pptx paragraph (runs, and the `space_after` this program sets). -/
structure Paragraph where
  runs : List Run
  spaceAfter : Option Nat := Option.none
deriving DecidableEq

/-- A python-pptx text frame, with the frame attributes this program sets. -/
structure TextFrame where
  paragraphs : List Paragraph
  wordWrap : Option Bool := Option.none
  anchorTop : Bool := false
deriving DecidableEq

/-- A slide shape: `has_text_frame`, and the text frame when it has one. -/
structure Shape where
  hasTextFrame : Bool
  tf : TextFrame
deriving DecidableEq

/-- A paragraph's `.text`: the concatenation of its runs' texts. -/
def paraText (p : Paragraph) : List Char := (p.runs.map Run.text).flatten

/-- A text frame's (and its shape's) `.text`: paragraph texts joined by `\n`. -/
def tfText (tf : TextFrame) : List Char := intercalateNl (tf.paragraphs.map paraText)

def shapeText (s : Shape) : List Char := tfText s.tf

/-- `auto_fit_text`'s `shrink_factor`, kept as a numerator over 10, computed
by the same cascade of `if`s as the source. -/
def shrinkNum (totalChars : Nat) : Nat :=
  let s := 10
  let s := if totalChars > 800 then 9 else s
  let s := if totalChars > 1200 then 8 else s
  if totalChars > 1600 then 7 else s

/-- `total_chars = sum(len(p.text) for p in tf.paragraphs)`. -/
def totalChars (tf : TextFrame) : Nat :=
  (tf.paragraphs.map fun p => (paraText p).length).sum

/-- `font_size = max(min_size, int(max_size * shrink_factor))`.  For the only
call site (`max_size=11, min_size=9`) the float products 11·1.0, 11·0.9,
11·0.8, 11·0.7 truncate to 11, 9, 8, 7 — exactly as these rational products
do, so integer division by 10 is faithful here. -/
def fitFontSize (maxSize minSize tc : Nat) : Nat :=
  max minSize (maxSize * shrinkNum tc / 10)

/-- `auto_fit_text(shape, max_size, min_size)`: sets every run's font size
from the frame's total character count. -/
def auto_fit_text (maxSize minSize : Nat) (tf : TextFrame) : TextFrame :=
  { tf with
    paragraphs := tf.paragraphs.map fun p =>
      { p with runs := p.runs.map fun r =>
          { r with size := some (fitFontSize maxSize minSize (totalChars tf)) } } }

/-- `f"{{{{{key.upper()}}}}}"`: the upper-cased key in double curly braces. -/
def placeholderOf (key : List Char) : List Char :=
  '{' :: '{' :: (key.map Char.toUpper ++ ['}', '}'])

/-- The keys rendered in white in `fill_ppt_template`. -/
def whiteKeys : List (List Char) :=
  ["name", "role", "location", "education_and_certification"].map String.toList

/-- The run-formatting loop of `fill_ppt_template`: font name "Aptos", white
text for the heading keys, dark grey otherwise. -/
def formatRun (key : List Char) (r : Run) : Run :=
  { r with
    fontName := some "Aptos".toList
    color := if key ∈ whiteKeys then some (255, 255, 255) else some (40, 40, 40) }

/-- One iteration of the `for key, val in data.items()` loop body of
`fill_ppt_template` on a text frame: when the key's placeholder occurs in the
current text, the text is rewritten (`str.replace` replaces every
occurrence), the frame is cleared — leaving the one empty first paragraph
that `tf.clear()` keeps — and one paragraph per line of the new text is
added through `apply_bold_markdown`, then recolored and resized. -/
def fillStep (tf : TextFrame) (kv : List Char × List Char) : TextFrame :=
  let ph := placeholderOf kv.1
  if hasSub ph (tfText tf) then
    let newText := replaceLit '{' (ph.drop 1) kv.2 (tfText tf)
    let paras : List Paragraph :=
      (splitNl newText).map fun line =>
        { runs := apply_bold_markdown line, spaceAfter := some 4 }
    let tf' : TextFrame :=
      { paragraphs := ({ runs := [] } : Paragraph) :: paras
        wordWrap := some true
        anchorTop := true }
    let tf'' : TextFrame :=
      { tf' with paragraphs := tf'.paragraphs.map fun p =>
          { p with runs := p.runs.map (formatRun kv.1) } }
    auto_fit_text 11 9 tf''
  else tf

/-- The per-shape part of `fill_ppt_template`: shapes without a text frame
are skipped, the others go through the key loop. -/
def fillShape (data : List (List Char × List Char)) (s : Shape) : Shape :=
  if s.hasTextFrame then { s with tf := data.foldl fillStep s.tf } else s

/-- `fill_ppt_template(template_path, data, output_path)` on the opened
presentation (a list of slides, each a list of shapes); saving is the
caller's file-system boundary. -/
def fill_ppt_template (data : List (List Char × List Char)) (prs : List (List Shape)) :
    List (List Shape) :=
  prs.map fun slide => slide.map (fillShape data)

/-! ### `extract_text`: the pdf and docx branches -/

/-- The match attempt of `\s*-\s*\n\s*` at this position: leading whitespace,
a `-`, then a whitespace run that contains at least one newline (the greedy
`\s*`s around the `\n` consume the whole run); yields the remainder. -/
def tryHyphen (l : List Char) : Option (List Char) :=
  match l.dropWhile isPySpace with
  | '-' :: r =>
    if '\n' ∈ r.takeWhile isPySpace then some (r.dropWhile isPySpace)
    else Option.none
  | _ => Option.none

/-- `re.sub(r'\s*-\s*\n\s*', '-', page_text)` (hyphenated-word joining). -/
def hyphenFixF : Nat → List Char → List Char
  | 0, l => l
  | _ + 1, [] => []
  | fuel + 1, c :: cs =>
    match tryHyphen (c :: cs) with
    | some rest => '-' :: hyphenFixF fuel rest
    | Option.none => c :: hyphenFixF fuel cs

def hyphenFix (l : List Char) : List Char := hyphenFixF l.length l

/-- `re.sub(r'\n\s*(?=[a-z])', ' ', page_text)` (broken-line joining): a
newline and the whitespace after it become one space when the next character
— not consumed, it is a lookahead — is a lowercase ASCII letter. -/
def joinFixF : Nat → List Char → List Char
  | 0, l => l
  | _ + 1, [] => []
  | fuel + 1, c :: cs =>
    if c = '\n' then
      match cs.dropWhile isPySpace with
      | d :: _ =>
        if isLowerAlpha d then ' ' :: joinFixF fuel (cs.dropWhile isPySpace)
        else '\n' :: joinFixF fuel cs
      | [] => '\n' :: joinFixF fuel cs
    else c :: joinFixF fuel cs

def joinFix (l : List Char) : List Char := joinFixF l.length l

/-- One pdfplumber page as this code consumes it: the results of
`page.extract_text()` and `page.extract_text(layout=True)`, each `none` when
the library returns `None`. -/
structure PdfPage where
  plain : Option (List Char)
  layout : Option (List Char)
deriving DecidableEq

/-- The body of the pdf page loop: take the plain extraction, fall back to
the layout extraction when it is falsy or its strip is shorter than 10, and
when the result is truthy apply the two fix-up substitutions. -/
def pdfPageText (pg : PdfPage) : Option (List Char) :=
  let pt : Option (List Char) :=
    match pg.plain with
    | Option.none => pg.layout
    | some t => if t = [] ∨ (stripChars t).length < 10 then pg.layout else some t
  match pt with
  | Option.none => Option.none
  | some t => if t = [] then Option.none else some (joinFix (hyphenFix t))

/-- The pdf page loop: each page may also raise (the `Except.error` case),
which aborts the loop and is caught by the outer `try`.  A kept page
contributes its fixed-up text plus `"\n"`. -/
def pdfCollect : List (Except (List Char) PdfPage) → Except (List Char) (List Char)
  | [] => .ok []
  | .error e :: _ => .error e
  | .ok pg :: rest =>
    match pdfCollect rest with
    | .error e => .error e
    | .ok tl =>
      .ok ((match pdfPageText pg with
            | Option.none => []
            | some t => t ++ ['\n']) ++ tl)

instance {ε α : Type} [DecidableEq ε] [DecidableEq α] : DecidableEq (Except ε α) := fun a b =>
  match a, b with
  | .ok x, .ok y => if h : x = y then .isTrue (by rw [h]) else .isFalse (by simp [h])
  | .error x, .error y => if h : x = y then .isTrue (by rw [h]) else .isFalse (by simp [h])
  | .ok _, .error _ => .isFalse (by simp)
  | .error _, .ok _ => .isFalse (by simp)

/-- A docx section: header and footer paragraph texts. -/
structure DocxSection where
  header : List (List Char)
  footer : List (List Char)
deriving DecidableEq

/-- A python-docx document as this code consumes it: paragraph texts, table
cell texts (tables → rows → cells), and the sections access, which may raise
(`Except.error`) — that failure is swallowed by the inner `except: pass`. -/
structure DocxDoc where
  paras : List (List Char)
  tables : List (List (List (List Char)))
  sections : Except (List Char) (List DocxSection)
deriving DecidableEq

/-- The docx branch's `full_text` list: non-blank paragraph texts, non-blank
table cell texts, then (guarded by the inner `try`) non-blank header and
footer paragraph texts. -/
def docxFullText (doc : DocxDoc) : List (List Char) :=
  (doc.paras.filter fun t => !(stripChars t).isEmpty)
    ++ (doc.tables.flatten.flatten.filter fun t => !(stripChars t).isEmpty)
    ++ (match doc.sections with
        | .error _ => []
        | .ok secs =>
          (secs.map fun s =>
            (s.header.filter fun t => !(stripChars t).isEmpty)
              ++ (s.footer.filter fun t => !(stripChars t).isEmpty)).flatten)

/-- The fallible library calls `extract_text` makes, as an environment:
opening/parsing the file with pdfplumber (with its pages) or python-docx. -/
structure ExtractEnv where
  pdfOpen : Except (List Char) (List (Except (List Char) PdfPage))
  docxOpen : Except (List Char) DocxDoc
deriving DecidableEq

/-- The `st.error(f"Error extracting text from file: {str(e)}")` message. -/
def errMsg (e : List Char) : List Char :=
  "Error extracting text from file: ".toList ++ e

/-- `extract_text(file_path)`: the returned string together with the list of
`st.error` messages surfaced.  Any exception inside the `try` yields the
message and the empty string. -/
def extract_text (path : List Char) (env : ExtractEnv) : List Char × List (List Char) :=
  if ends ".pdf".toList (path.map Char.toLower) then
    match env.pdfOpen with
    | .error e => ([], [errMsg e])
    | .ok pages =>
      match pdfCollect pages with
      | .error e => ([], [errMsg e])
      | .ok text => (clean_text text, [])
  else
    match env.docxOpen with
    | .error e => ([], [errMsg e])
    | .ok doc => (clean_text (intercalateNl (docxFullText doc)), [])

/-- The pdf branch of `extract_text` by itself (for the branch-selection
claim). -/
def extractPdfBranch (env : ExtractEnv) : List Char × List (List Char) :=
  match env.pdfOpen with
  | .error e => ([], [errMsg e])
  | .ok pages =>
    match pdfCollect pages with
    | .error e => ([], [errMsg e])
    | .ok text => (clean_text text, [])

/-- The docx branch of `extract_text` by itself. -/
def extractDocxBranch (env : ExtractEnv) : List Char × List (List Char) :=
  match env.docxOpen with
  | .error e => ([], [errMsg e])
  | .ok doc => (clean_text (intercalateNl (docxFullText doc)), [])

/-! ### `summarize_with_gemini`: `json.loads`, the regex fallback, parsing -/

/-- A Python value as `json.loads` produces it.  A numeric literal is kept as
its lexeme: this program never computes with numbers, so no float semantics
are modelled (two distinct lexemes of equal value stay distinct). -/
inductive PyVal where
  | str : List Char → PyVal
  | num : List Char → PyVal
  | bool : Bool → PyVal
  | null : PyVal
  | arr : List PyVal → PyVal
  | dict : List (List Char × PyVal) → PyVal

/-- JSON whitespace (the only characters `json.loads` skips between tokens). -/
def isJsonWs (c : Char) : Bool := c = ' ' || c = '\t' || c = '\n' || c = '\r'

def hexDigitVal (c : Char) : Option Nat :=
  if isAsciiDigit c then some (c.toNat - 48)
  else if 'a' ≤ c ∧ c ≤ 'f' then some (c.toNat - 87)
  else if 'A' ≤ c ∧ c ≤ 'F' then some (c.toNat - 55)
  else Option.none

def hex4 : List Char → Option (Nat × List Char)
  | a :: b :: c :: d :: rest =>
    match hexDigitVal a, hexDigitVal b, hexDigitVal c, hexDigitVal d with
    | some x, some y, some z, some w => some (((x * 16 + y) * 16 + z) * 16 + w, rest)
    | _, _, _, _ => Option.none
  | _ => Option.none

def simpleEsc (e : Char) : Option Char :=
  if e = '"' then some '"'
  else if e = '\\' then some '\\'
  else if e = '/' then some '/'
  else if e = 'b' then some (Char.ofNat 8)
  else if e = 'f' then some (Char.ofNat 12)
  else if e = 'n' then some '\n'
  else if e = 'r' then some '\r'
  else if e = 't' then some '\t'
  else Option.none

/-- Decode one `\uXXXX` escape: a high surrogate followed by a low-surrogate
escape combines into one code point as `json.loads` does.  (Python keeps a
lone surrogate in the string; Lean's `Char` cannot hold one, so a lone
surrogate becomes U+FFFD — a deviation only on malformed escape pairs this
pipeline never meets.) -/
def juChar (n : Nat) (rest : List Char) : Char × List Char :=
  if 0xD800 ≤ n ∧ n < 0xDC00 then
    match rest with
    | '\\' :: 'u' :: tail =>
      match hex4 tail with
      | some (m, rest2) =>
        if 0xDC00 ≤ m ∧ m < 0xE000 then
          (Char.ofNat (0x10000 + (n - 0xD800) * 0x400 + (m - 0xDC00)), rest2)
        else (Char.ofNat 0xFFFD, rest)
      | Option.none => (Char.ofNat 0xFFFD, rest)
    | _ => (Char.ofNat 0xFFFD, rest)
  else if 0xDC00 ≤ n ∧ n < 0xE000 then (Char.ofNat 0xFFFD, rest)
  else (Char.ofNat n, rest)

/-- The body of a JSON string literal, after the opening quote, in
`json.loads`'s strict default mode: raw control characters under 0x20 are an
error; the escapes are `\" \\ \/ \b \f \n \r \t \uXXXX`. -/
def jstrF : Nat → List Char → Option (List Char × List Char)
  | 0, _ => Option.none
  | _ + 1, [] => Option.none
  | fuel + 1, c :: cs =>
    if c = '"' then some ([], cs)
    else if c = '\\' then
      match cs with
      | 'u' :: cs2 =>
        match hex4 cs2 with
        | some (n, cs3) =>
          match juChar n cs3 with
          | (ch, rest) => (jstrF fuel rest).map fun pr => (ch :: pr.1, pr.2)
        | Option.none => Option.none
      | e :: cs2 =>
        match simpleEsc e with
        | some ch => (jstrF fuel cs2).map fun pr => (ch :: pr.1, pr.2)
        | Option.none => Option.none
      | [] => Option.none
    else if c.toNat < 0x20 then Option.none
    else (jstrF fuel cs).map fun pr => (c :: pr.1, pr.2)

/-- A JSON number lexeme: `-?(0|[1-9][0-9]*)(\.[0-9]+)?([eE][+-]?[0-9]+)?`,
kept verbatim.  When frac or exp fail to parse the lexeme ends before them
(`json.loads` then fails on the unconsumed rest, as Python does). -/
def jnum (l : List Char) : Option (List Char × List Char) :=
  let sr : List Char × List Char :=
    match l with
    | '-' :: r => (['-'], r)
    | _ => ([], l)
  match sr.2 with
  | c :: _ =>
    if ¬ isAsciiDigit c then Option.none
    else
      let intPart := if c = '0' then ['0'] else sr.2.takeWhile isAsciiDigit
      let r2 := sr.2.drop intPart.length
      let fr : List Char × List Char :=
        match r2 with
        | '.' :: d :: _ =>
          if isAsciiDigit d then
            let ds := (r2.drop 1).takeWhile isAsciiDigit
            ('.' :: ds, r2.drop (1 + ds.length))
          else ([], r2)
        | _ => ([], r2)
      let ex : List Char × List Char :=
        match fr.2 with
        | e :: rest =>
          if e = 'e' ∨ e = 'E' then
            let sg : List Char × List Char :=
              match rest with
              | '+' :: rr => (['+'], rr)
              | '-' :: rr => (['-'], rr)
              | _ => ([], rest)
            match sg.2 with
            | d :: _ =>
              if isAsciiDigit d then
                let ds := sg.2.takeWhile isAsciiDigit
                (e :: (sg.1 ++ ds), sg.2.drop ds.length)
              else ([], fr.2)
            | [] => ([], fr.2)
          else ([], fr.2)
        | [] => ([], fr.2)
      some (sr.1 ++ intPart ++ fr.1 ++ ex.1, ex.2)
  | [] => Option.none

/-- Python `dict.__setitem__`: an existing key keeps its position and takes
the new value; a new key is appended. -/
def insertUpdate (d : List (List Char × PyVal)) (k : List Char) (v : PyVal) :
    List (List Char × PyVal) :=
  if d.any fun kv => kv.1 == k then
    d.map fun kv => if kv.1 == k then (k, v) else kv
  else d ++ [(k, v)]

mutual

/-- A JSON value, as `json.loads` parses one (including the `NaN`,
`Infinity`, `-Infinity` constants Python accepts by default). -/
def jval : Nat → List Char → Option (PyVal × List Char)
  | 0, _ => Option.none
  | fuel + 1, l =>
    match l with
    | c :: cs =>
      if c = '{' then
        match cs.dropWhile isJsonWs with
        | '}' :: rest => some (.dict [], rest)
        | r => jmembers fuel [] r
      else if c = '[' then
        match cs.dropWhile isJsonWs with
        | ']' :: rest => some (.arr [], rest)
        | r => jitems fuel [] r
      else if c = '"' then
        (jstrF (cs.length + 1) cs).map fun pr => (.str pr.1, pr.2)
      else if begins "true".toList l then some (.bool true, l.drop 4)
      else if begins "false".toList l then some (.bool false, l.drop 5)
      else if begins "null".toList l then some (.null, l.drop 4)
      else if begins "NaN".toList l then some (.num "NaN".toList, l.drop 3)
      else if begins "Infinity".toList l then some (.num "Infinity".toList, l.drop 8)
      else if begins "-Infinity".toList l then some (.num "-Infinity".toList, l.drop 9)
      else (jnum l).map fun pr => (.num pr.1, pr.2)
    | [] => Option.none

/-- The members of a JSON object after `{` (or after a `,`): key string,
colon, value; then `,` continues and `}` closes.  Duplicate keys update in
place as Python dict assignment does. -/
def jmembers (fuel : Nat) (acc : List (List Char × PyVal)) (l : List Char) :
    Option (PyVal × List Char) :=
  match fuel with
  | 0 => Option.none
  | fuel + 1 =>
    match l with
    | '"' :: cs =>
      match jstrF (cs.length + 1) cs with
      | some (k, r1) =>
        match r1.dropWhile isJsonWs with
        | ':' :: r2 =>
          match jval fuel (r2.dropWhile isJsonWs) with
          | some (v, r3) =>
            match r3.dropWhile isJsonWs with
            | ',' :: r4 => jmembers fuel (insertUpdate acc k v) (r4.dropWhile isJsonWs)
            | '}' :: r4 => some (.dict (insertUpdate acc k v), r4)
            | _ => Option.none
          | Option.none => Option.none
        | _ => Option.none
      | Option.none => Option.none
    | _ => Option.none

/-- The items of a JSON array after `[` (or after a `,`). -/
def jitems (fuel : Nat) (acc : List PyVal) (l : List Char) :
    Option (PyVal × List Char) :=
  match fuel with
  | 0 => Option.none
  | fuel + 1 =>
    match jval fuel l with
    | some (v, r1) =>
      match r1.dropWhile isJsonWs with
      | ',' :: r2 => jitems fuel (acc ++ [v]) (r2.dropWhile isJsonWs)
      | ']' :: r2 => some (.arr (acc ++ [v]), r2)
      | _ => Option.none
    | Option.none => Option.none

end

/-- Python `json.loads` on this program's inputs.  The fuel `2·|s| + 2` never
runs out: every recursive call of the parser either consumes a character or
alternates value/sequence once, so a run uses at most two units per input
character. -/
def jsonLoads (s : List Char) : Option PyVal :=
  match jval (2 * s.length + 2) (s.dropWhile isJsonWs) with
  | some (v, r) => if r.dropWhile isJsonWs = [] then some v else Option.none
  | Option.none => Option.none

/-- `v.replace('\\n', '\n').strip()`: the two-character sequence
backslash-`n` becomes a newline, then surrounding whitespace is stripped. -/
def unescapeNl (v : List Char) : List Char :=
  stripChars (replaceLit '\\' ['n'] ['\n'] v)

/-- The match attempt of `"(\w+)"\s*:\s*"([^"]*)"` at this position. -/
def tryPair (l : List Char) : Option (List Char × List Char × List Char) :=
  match l with
  | '"' :: cs =>
    let k := cs.takeWhile isWordChar
    if k = [] then Option.none
    else
      match cs.drop k.length with
      | '"' :: r1 =>
        match r1.dropWhile isPySpace with
        | ':' :: r2 =>
          match r2.dropWhile isPySpace with
          | '"' :: r3 =>
            let v := r3.takeWhile fun c => c != '"'
            match r3.drop v.length with
            | '"' :: rest => some (k, v, rest)
            | _ => Option.none
          | _ => Option.none
        | _ => Option.none
      | _ => Option.none
  | _ => Option.none

/-- `re.finditer(r'"(\w+)"\s*:\s*"([^"]*)"', content)`: all the
non-overlapping key/value captures, left to right. -/
def findPairsF : Nat → List Char → List (List Char × List Char)
  | 0, _ => []
  | _ + 1, [] => []
  | fuel + 1, c :: cs =>
    match tryPair (c :: cs) with
    | some (k, v, rest) => (k, v) :: findPairsF fuel rest
    | Option.none => findPairsF fuel cs

def findPairs (l : List Char) : List (List Char × List Char) := findPairsF l.length l

/-- The regex-fallback branch of `summarize_with_gemini`: each captured pair
is unescaped, stripped and written into the dict (later duplicates win). -/
def regexFallback (content : List Char) : List (List Char × PyVal) :=
  (findPairs content).foldl (fun d kv => insertUpdate d kv.1 (.str (unescapeNl kv.2))) []

/-- The per-value post-processing of a successfully parsed object: string
values are unescaped and stripped, other values are kept as they are. -/
def unescapeVal : PyVal → PyVal
  | .str s => .str (unescapeNl s)
  | v => v

/-- Everything `summarize_with_gemini` does after `response.text`: strip the
content, try `json.loads` — an exception anywhere in the `try` block,
including `data.items()` on a non-dict value, falls through to the regex
fallback — and post-process the values. -/
def parseResponse (respText : List Char) : List (List Char × PyVal) :=
  let content := stripChars respText
  match jsonLoads content with
  | some (.dict es) => es.map fun kv => (kv.1, unescapeVal kv.2)
  | some _ => regexFallback content
  | Option.none => regexFallback content

/-- `re.sub(r'[^\x00-\x7F]+', ' ', text)` then `re.sub(r'\s+', ' ', ...)`
then `.strip()`: the pre-processing at the top of `summarize_with_gemini`. -/
def preprocessResume (text : List Char) : List Char :=
  stripChars (runsToSpace isPySpace (runsToSpace (fun c => decide (127 < c.toNat)) text))

/-- The prompt literal of `summarize_with_gemini` up to the spliced resume
text (in the source an f-string; its doubled braces are literal braces,
written here as escapes). -/
def promptHeader : String :=
"
You are a professional technical résumé summarizer creating concise, impactful summaries for a 1-page PowerPoint résumé.

Produce JSON with these exact keys:
\x7b
  \"name\": \"\",
  \"role\": \"\",
  \"location\": \"\",
  \"profile_overview\": \"\",
  \"professional_experience\": \"\",
  \"skills\": \"\",
  \"domain_experience\": \"\",
  \"education_and_certification\": \"\"
\x7d

🧠 Guidelines:

1. PROFILE OVERVIEW:
   - 5–6 lines in a paragraph highlighting experience, domains, tools/technologies (**bold**), and achievements.
   - Include domain expertise, key tools, automation/workflow knowledge.
   - Example: \"Accomplished Data Engineer with over 5 years of experience designing and delivering robust end-to-end ETL/ELT pipelines across Finance, Healthcare and Banking domains. Proficient in **dbt**, **Snowflake**, **Azure Data Factory (ADF)**, **SQL**. Expert in automating ETL with **ControlM**, **MFP**, and **ADF**, integrating data from **Oracle**, **SQL Server**, and **AWS S3**.\"

2. LOCATION:
   - Extract candidate's current city and country. Always fill this field.
   - Example: \"Bangalore, India\"

3. PROFESSIONAL EXPERIENCE:
   - Include **only the 3 most recent projects or roles** from the résumé.
   - Each project should have a **bold heading** with 2–3 bullets explaining what was built, tools used, and outcomes.
   - Bullet points should start with \"* \".
   - Limit total text to ~900–1000 characters to fit in PowerPoint.
   - Example:
     **Customer Data Pipeline Migration at XYZ Corp**
     * Leveraged **Snowflake**, **dbt**, **Azure Data Factory (ADF)** to build scalable data models and ensure high-quality reconciled datasets.
     * Automated ETL processes with **ControlM**, improving data processing efficiency by 30%.

4. SKILLS: Comma-separated list of key skills/technologies. Limit to 15 top skills.

5. DOMAIN EXPERIENCE: 2–3 short items describing domains worked in.

6. EDUCATION & CERTIFICATION: 1–2 lines. Always fill this field.

🔹 Formatting rules:
- Use Markdown-style bold (**text**) for tools, technologies, and project names.
- Keep text compact (~1000 characters per large section).
- Preserve line breaks for bullets and paragraphs.

Resume text:
"

/-- The full prompt: the header f-string with the cleaned resume text
spliced in (the f-string closes with a newline after `{text}`). -/
def promptText (cleaned : List Char) : List Char :=
  promptHeader.toList ++ cleaned ++ ['\n']

/-- `summarize_with_gemini(text)`, with the API modelled by `respond`: the
pre-processing, the single `client.models.generate_content` request —
returned in the request log —, and the response parsing.  The API call is
not inside any `try`, so a failing `respond` propagates as the error. -/
def summarize_with_gemini (text : List Char)
    (respond : List Char → Except (List Char) (List Char)) :
    Except (List Char) (List (List Char × PyVal)) × List (List Char) :=
  let prompt := promptText (preprocessResume text)
  (match respond prompt with
   | .ok r => .ok (parseResponse r)
   | .error e => .error e, [prompt])

/-! ### Lemmas: the bold split is a partition of its input -/

theorem findClose_eq (cs : List Char) : ∀ {inner rest : List Char},
    findClose cs = some (inner, rest) → cs = inner ++ '*' :: '*' :: rest := by
  induction cs with
  | nil => intro inner rest h; simp [findClose] at h
  | cons c cs ih =>
    intro inner rest h
    rcases cs with _ | ⟨c2, cs2⟩
    · simp [findClose] at h
    · rw [findClose] at h
      by_cases hst : c = '*' ∧ c2 = '*'
      · rw [if_pos hst] at h
        obtain ⟨rfl, rfl⟩ := hst
        obtain ⟨rfl, rfl⟩ : [] = inner ∧ cs2 = rest := by
          simpa using h
        rfl
      · rw [if_neg hst] at h
        by_cases hnl : c = '\n'
        · simp [hnl] at h
        · rw [if_neg hnl] at h
          rcases hfc : findClose (c2 :: cs2) with _ | ⟨inner', rest'⟩
          · simp [hfc] at h
          · rw [hfc] at h
            obtain ⟨rfl, rfl⟩ : c :: inner' = inner ∧ rest' = rest := by
              simpa using h
            simpa using ih hfc

theorem boldScanF_join : ∀ (fuel : Nat) (acc l : List Char),
    ((boldScanF fuel acc l).map Prod.fst).flatten = acc.reverse ++ l := by
  intro fuel
  induction fuel with
  | zero => intro acc l; simp [boldScanF]
  | succ fuel ih =>
    intro acc l
    rcases l with _ | ⟨c, cs⟩
    · simp [boldScanF]
    · by_cases hst : c = '*' ∧ cs.head? = some '*'
      · rw [boldScanF, if_pos hst]
        obtain ⟨rfl, hh⟩ := hst
        rcases cs with _ | ⟨c2, cs2⟩
        · simp at hh
        · obtain rfl : c2 = '*' := by simpa using hh
          rcases hfc : findClose cs2 with _ | ⟨inner, rest⟩
          · simp only [List.tail_cons, hfc]
            rw [ih]; simp
          · simp only [List.tail_cons, hfc]
            have hcs2 := findClose_eq cs2 hfc
            simp [ih, hcs2]
      · rw [boldScanF, if_neg hst]
        rw [ih]; simp

/-- Concatenating the pieces of the bold split gives back the input. -/
theorem boldParts_flatten (text : List Char) : (boldParts text).flatten = text := by
  simpa [boldParts, boldScanMarked] using boldScanF_join (text.length + 1) [] text

theorem apply_bold_texts (t : List Char) :
    (apply_bold_markdown t).map Run.text
      = (boldParts t).map fun p => if wrapped p then dropWrap p else p := by
  rw [apply_bold_markdown, List.map_map]
  have : (Run.text ∘ fun p => if wrapped p then
        ({ text := dropWrap p, bold := some true } : Run) else { text := p })
      = fun p => if wrapped p then dropWrap p else p := by
    funext p
    by_cases h : wrapped p <;> simp [h]
  rw [this]

theorem apply_bold_bolds (t : List Char) :
    (apply_bold_markdown t).map Run.bold
      = (boldParts t).map fun p => if wrapped p then some true else Option.none := by
  rw [apply_bold_markdown, List.map_map]
  have : (Run.bold ∘ fun p => if wrapped p then
        ({ text := dropWrap p, bold := some true } : Run) else { text := p })
      = fun p => if wrapped p then some true else Option.none := by
    funext p
    by_cases h : wrapped p <;> simp [h]
  rw [this]

/-! ### Lemmas: `clean_text` output has no newline, and its dedup step is
the identity there -/

theorem length_dropWhile_le' (p : Char → Bool) (l : List Char) :
    (l.dropWhile p).length ≤ l.length := by
  induction l with
  | nil => simp
  | cons c cs ih =>
    rw [List.dropWhile_cons]
    split
    · exact Nat.le_succ_of_le ih
    · exact Nat.le_refl _

theorem mem_dropWhile_imp {a : Char} {p : Char → Bool} {l : List Char}
    (h : a ∈ l.dropWhile p) : a ∈ l := by
  induction l with
  | nil => simp at h
  | cons c cs ih =>
    rw [List.dropWhile_cons] at h
    split at h
    · exact List.mem_cons_of_mem _ (ih h)
    · exact h

theorem mem_stripChars {a : Char} {l : List Char} (h : a ∈ stripChars l) : a ∈ l := by
  unfold stripChars at h
  rw [List.mem_reverse] at h
  have h2 := mem_dropWhile_imp h
  rw [List.mem_reverse] at h2
  exact mem_dropWhile_imp h2

theorem mem_replaceLitF {a p : Char} {ps repl : List Char} :
    ∀ {fuel : Nat} {l : List Char}, a ∈ replaceLitF p ps repl fuel l → a ∈ repl ∨ a ∈ l := by
  intro fuel
  induction fuel with
  | zero => intro l h; exact Or.inr h
  | succ fuel ih =>
    intro l h
    rcases l with _ | ⟨c, cs⟩
    · simp [replaceLitF] at h
    · rw [replaceLitF] at h
      split at h
      · rcases List.mem_append.1 h with h1 | h1
        · exact Or.inl h1
        · rcases ih h1 with h2 | h2
          · exact Or.inl h2
          · exact Or.inr (List.mem_cons_of_mem _ (List.mem_of_mem_drop h2))
      · rcases List.mem_cons.1 h with rfl | h1
        · exact Or.inr (List.mem_cons_self _ _)
        · rcases ih h1 with h2 | h2
          · exact Or.inl h2
          · exact Or.inr (List.mem_cons_of_mem _ h2)

theorem replaceLit_noNl {p : Char} {ps repl l : List Char} (hr : '\n' ∉ repl)
    (hl : '\n' ∉ l) : '\n' ∉ replaceLit p ps repl l := fun h =>
  (mem_replaceLitF h).elim hr hl

theorem mem_runsToSpaceF {a : Char} {p : Char → Bool} :
    ∀ {fuel : Nat} {l : List Char}, a ∈ runsToSpaceF p fuel l → a = ' ' ∨ a ∈ l := by
  intro fuel
  induction fuel with
  | zero => intro l h; exact Or.inr h
  | succ fuel ih =>
    intro l h
    rcases l with _ | ⟨c, cs⟩
    · simp [runsToSpaceF] at h
    · rw [runsToSpaceF] at h
      split at h
      · rcases List.mem_cons.1 h with rfl | h1
        · exact Or.inl rfl
        · rcases ih h1 with h2 | h2
          · exact Or.inl h2
          · exact Or.inr (List.mem_cons_of_mem _ (mem_dropWhile_imp h2))
      · rcases List.mem_cons.1 h with rfl | h1
        · exact Or.inr (List.mem_cons_self _ _)
        · rcases ih h1 with h2 | h2
          · exact Or.inl h2
          · exact Or.inr (List.mem_cons_of_mem _ h2)

theorem runsToSpace_noNl {p : Char → Bool} {l : List Char} (hl : '\n' ∉ l) :
    '\n' ∉ runsToSpace p l := fun h =>
  (mem_runsToSpaceF h).elim (by decide) hl

theorem runsToSpaceF_removes {p : Char → Bool} (hp : p '\n' = true) :
    ∀ (fuel : Nat) (l : List Char), l.length ≤ fuel → '\n' ∉ runsToSpaceF p fuel l := by
  intro fuel
  induction fuel with
  | zero => intro l hl
            have : l = [] := List.length_eq_zero.1 (Nat.le_zero.1 hl)
            subst this; simp [runsToSpaceF]
  | succ fuel ih =>
    intro l hl
    rcases l with _ | ⟨c, cs⟩
    · simp [runsToSpaceF]
    · rw [runsToSpaceF]
      simp only [List.length_cons] at hl
      split
      · intro h
        rcases List.mem_cons.1 h with h1 | h1
        · exact absurd h1 (by decide)
        · exact ih (cs.dropWhile p)
            (Nat.le_trans (length_dropWhile_le' p cs) (Nat.lt_succ_iff.1 hl)) h1
      · rename_i hc
        intro h
        rcases List.mem_cons.1 h with h1 | h1
        · exact hc (h1 ▸ hp)
        · exact ih cs (Nat.lt_succ_iff.1 hl) h1

/-- Every newline is gone after the `\n+` whitespace pass. -/
theorem nlRuns_noNl (l : List Char) : '\n' ∉ runsToSpace (fun c => c = '\n') l :=
  runsToSpaceF_removes (by decide) l.length l (Nat.le_refl _)

theorem matchPageDash_mem {cs rest : List Char} (h : matchPageDash cs = some rest)
    {x : Char} (hx : x ∈ rest) : x ∈ cs := by
  unfold matchPageDash at h
  split at h
  · rename_i p a g e r2 heq
    split at h
    · split at h
      · split at h
        · split at h
          · rename_i hh r6 heq3
            split at h
            · have hr : rest = r6 := by simpa using h.symm
              subst hr
              have hx2 : x ∈ ((r2.dropWhile isPySpace).dropWhile isAsciiDigit).dropWhile
                  isPySpace := by
                rw [heq3]; exact List.mem_cons_of_mem _ hx
              have hx3 : x ∈ r2 :=
                mem_dropWhile_imp (mem_dropWhile_imp (mem_dropWhile_imp hx2))
              have hx4 : x ∈ cs.dropWhile isPySpace := by
                rw [heq]
                exact List.mem_cons_of_mem _ (List.mem_cons_of_mem _
                  (List.mem_cons_of_mem _ (List.mem_cons_of_mem _ hx3)))
              exact mem_dropWhile_imp hx4
            · simp at h
          · simp at h
        · simp at h
      · simp at h
    · simp at h
  · simp at h

theorem matchPageBracket_mem {cs rest : List Char} (h : matchPageBracket cs = some rest)
    {x : Char} (hx : x ∈ rest) : x ∈ cs := by
  unfold matchPageBracket at h
  split at h
  · split at h
    · split at h
      · split at h
        · split at h
          · rename_i r7 heq3
            split at h
            · have hr : rest = r7 := by simpa using h.symm
              subst hr
              refine List.mem_cons_of_mem _ (List.mem_cons_of_mem _
                (List.mem_cons_of_mem _ (List.mem_cons_of_mem _
                  (List.mem_cons_of_mem _
                    (mem_dropWhile_imp (p := isAsciiDigit) ?_)))))
              rw [heq3]
              exact List.mem_cons_of_mem _ hx
            · simp at h
          · simp at h
        · simp at h
      · simp at h
    · simp at h
  · simp at h

theorem pageBreak1F_noNl : ∀ (fuel : Nat) {l : List Char},
    '\n' ∉ l → '\n' ∉ pageBreak1F fuel l := by
  intro fuel
  induction fuel with
  | zero => intro l hl; exact hl
  | succ fuel ih =>
    intro l hl
    rcases l with _ | ⟨c, cs⟩
    · simp [pageBreak1F]
    · have hc : c ≠ '\n' := fun h => hl (h ▸ List.mem_cons_self _ _)
      have hcs : '\n' ∉ cs := fun h => hl (List.mem_cons_of_mem _ h)
      rw [pageBreak1F]
      split
      · rcases hm : matchPageDash cs with _ | rest <;> intro h
        · rcases List.mem_cons.1 h with h1 | h1
          · exact absurd h1 (by decide)
          · exact ih hcs h1
        · rcases List.mem_cons.1 h with h1 | h1
          · exact absurd h1 (by decide)
          · exact ih (fun hx => hcs (matchPageDash_mem hm hx)) h1
      · intro h
        rcases List.mem_cons.1 h with h1 | h1
        · exact hc h1.symm
        · exact ih hcs h1

theorem pageBreak2F_noNl : ∀ (fuel : Nat) {l : List Char},
    '\n' ∉ l → '\n' ∉ pageBreak2F fuel l := by
  intro fuel
  induction fuel with
  | zero => intro l hl; exact hl
  | succ fuel ih =>
    intro l hl
    rcases l with _ | ⟨c, cs⟩
    · simp [pageBreak2F]
    · have hc : c ≠ '\n' := fun h => hl (h ▸ List.mem_cons_self _ _)
      have hcs : '\n' ∉ cs := fun h => hl (List.mem_cons_of_mem _ h)
      rw [pageBreak2F]
      split
      · rcases hm : matchPageBracket cs with _ | rest <;> intro h
        · rcases List.mem_cons.1 h with h1 | h1
          · exact absurd h1 (by decide)
          · exact ih hcs h1
        · rcases List.mem_cons.1 h with h1 | h1
          · exact absurd h1 (by decide)
          · exact ih (fun hx => hcs (matchPageBracket_mem hm hx)) h1
      · intro h
        rcases List.mem_cons.1 h with h1 | h1
        · exact hc h1.symm
        · exact ih hcs h1

theorem stripChars_noNl {l : List Char} (hl : '\n' ∉ l) : '\n' ∉ stripChars l :=
  fun h => hl (mem_stripChars h)

theorem cleanTextPre_noNl (s : List Char) : '\n' ∉ cleanTextPre s :=
  stripChars_noNl (runsToSpace_noNl (replaceLit_noNl (by decide)
    (replaceLit_noNl (by decide) (pageBreak2F_noNl _ (pageBreak1F_noNl _
      (replaceLit_noNl (by decide) (replaceLit_noNl (by decide)
        (replaceLit_noNl (by decide) (replaceLit_noNl (by decide)
          (replaceLit_noNl (by decide) (replaceLit_noNl (by decide)
            (nlRuns_noNl _))))))))))))

theorem splitNl_single : ∀ {t : List Char}, '\n' ∉ t → splitNl t = [t] := by
  intro t
  induction t with
  | nil => intro _; rfl
  | cons c cs ih =>
    intro h
    have hc : ¬ c = '\n' := fun hcc => h (hcc ▸ List.mem_cons_self _ _)
    have hcs : '\n' ∉ cs := fun hm => h (List.mem_cons_of_mem _ hm)
    rw [splitNl, if_neg hc, ih hcs]

theorem dropWhile_head_false {p : Char → Bool} : ∀ {l : List Char} {c : Char} {t : List Char},
    l.dropWhile p = c :: t → p c = false := by
  intro l
  induction l with
  | nil => intro c t h; simp at h
  | cons d ds ih =>
    intro c t h
    rw [List.dropWhile_cons] at h
    split at h
    · exact ih h
    · cases h
      rename_i hd
      revert hd
      cases p d <;> simp

theorem dropWhile_eq_self_of_head {p : Char → Bool} {l : List Char}
    (h : ∀ c t, l = c :: t → p c = false) : l.dropWhile p = l := by
  cases l with
  | nil => rfl
  | cons c t => rw [List.dropWhile_cons]; simp [h c t rfl]

theorem dropWhile_idem {p : Char → Bool} (l : List Char) :
    (l.dropWhile p).dropWhile p = l.dropWhile p :=
  dropWhile_eq_self_of_head fun _ _ h => dropWhile_head_false h

theorem getLast?_dropWhile {p : Char → Bool} {l : List Char} (h : l.dropWhile p ≠ []) :
    (l.dropWhile p).getLast? = l.getLast? := by
  conv_rhs => rw [← List.takeWhile_append_dropWhile (p := p) (l := l)]
  exact (List.getLast?_append_of_ne_nil _ h).symm

theorem stripChars_idem (l : List Char) : stripChars (stripChars l) = stripChars l := by
  have hS : (stripChars l).dropWhile isPySpace = stripChars l := by
    apply dropWhile_eq_self_of_head
    intro c t h
    -- the head of `stripChars l` is the last element of the inner dropWhile
    have hB : ((l.dropWhile isPySpace).reverse.dropWhile isPySpace) ≠ [] := by
      intro hB
      rw [stripChars, hB] at h
      simp at h
    have h1 : ((l.dropWhile isPySpace).reverse.dropWhile isPySpace).getLast? = some c := by
      have := List.head?_reverse ((l.dropWhile isPySpace).reverse.dropWhile isPySpace)
      rw [← this, ← stripChars, h]
      rfl
    rw [getLast?_dropWhile hB, List.getLast?_reverse] at h1
    rcases hA : l.dropWhile isPySpace with _ | ⟨a, t2⟩
    · rw [hA] at h1; simp at h1
    · rw [hA] at h1
      simp only [List.head?_cons, Option.some.injEq] at h1
      subst h1
      exact dropWhile_head_false hA
  rw [stripChars, hS]
  conv_lhs => rw [stripChars]
  rw [List.reverse_reverse, dropWhile_idem, ← stripChars]

theorem cleanTextPre_stripped (s : List Char) :
    stripChars (cleanTextPre s) = cleanTextPre s :=
  stripChars_idem _

theorem dedupLines_single {t : List Char} (hnl : '\n' ∉ t) (hst : stripChars t = t) :
    dedupLines t = t := by
  rw [dedupLines, splitNl_single hnl]
  by_cases h : t = []
  · subst h
    rfl
  · rw [dedupLinesGo]
    simp only [hst]
    rw [if_pos ⟨h, List.not_mem_nil t⟩]
    rfl

theorem clean_text_eq_pre (s : List Char) : clean_text s = cleanTextPre s := by
  rw [clean_text]
  exact dedupLines_single (cleanTextPre_noNl s) (cleanTextPre_stripped s)

theorem clean_text_noNl (s : List Char) : '\n' ∉ clean_text s := by
  rw [clean_text_eq_pre]; exact cleanTextPre_noNl s

example : jsonLoads " [1, 2] ".toList = some (.arr [.num ['1'], .num ['2']]) := rfl
example : jsonLoads "01".toList = Option.none := rfl
example : jsonLoads "\x7b\"a\":1,\"a\":2,\"b\":3\x7d".toList
    = some (.dict [("a".toList, .num ['2']), ("b".toList, .num ['3'])]) := rfl
example : parseResponse " \x7b\"a\": \" x \"\x7d ".toList
    = [("a".toList, .str ['x'])] := rfl
example : findPairs "x \"k\" : \"v1\" y \"k\":\"v2\"".toList
    = [("k".toList, "v1".toList), ("k".toList, "v2".toList)] := by decide

example : hyphenFix "ab - \n  cd".toList = "ab-cd".toList := by decide
example : hyphenFix "a-b\nc - d".toList = "a-b\nc - d".toList := by decide
example : joinFix "a\n  b\n  Bc\nd".toList = "a b\n  Bc d".toList := by decide

example : boldParts "**a****b**".toList
    = [[], "**a**".toList, [], "**b**".toList, []] := by decide
example : boldParts "***x**".toList = [[], "***x**".toList, []] := by decide
example : boldParts "***".toList = ["***".toList] := by decide
example : (apply_bold_markdown "**a** b".toList).map Run.text
    = [[], "a".toList, " b".toList] := by decide
example : (apply_bold_markdown "**".toList) = [{ text := [], bold := some true }] := by decide

/-! ### Claim theorems -/

theorem splitNl_ne_nil (t : List Char) : splitNl t ≠ [] := by
  cases t with
  | nil => simp [splitNl]
  | cons c cs =>
    rw [splitNl]
    split
    · simp
    · rcases h : splitNl cs with _ | ⟨l, ls⟩ <;> simp

/-- C9 (amended): for every input, the pieces of the `re.split` partition the
input (their concatenation is the input); `apply_bold_markdown` adds one run
per piece in order, a piece that starts and ends with `**` — every matched
`**...**` span, but also a lone unmatched `**` or `***` piece — becomes a run
with the markers stripped (`part[2:-2]`, so such a lone marker is dropped
rather than copied) and bold set, and every other piece is copied verbatim
into a run whose bold stays unset. -/
theorem claim_C9_bold_runs (t : List Char) :
    ((apply_bold_markdown t).map Run.text).flatten
        = ((boldParts t).map fun p => if wrapped p then dropWrap p else p).flatten
      ∧ (boldParts t).flatten = t
      ∧ (apply_bold_markdown t).map Run.bold
          = (boldParts t).map fun p => if wrapped p then some true else Option.none :=
  ⟨by rw [apply_bold_texts], boldParts_flatten t, apply_bold_bolds t⟩

/-- C9 counterexample: on the lone unpaired marker `"**"` the split has no
matched piece, yet the function adds an empty bold run, so the marker is not
copied verbatim into a non-bold run and the concatenation of run texts is not
the input. -/
theorem claim_C9_cex :
    boldScanMarked ['*', '*'] = [(['*', '*'], false)]
      ∧ apply_bold_markdown ['*', '*'] = [{ text := [], bold := some true }]
      ∧ ((apply_bold_markdown ['*', '*']).map Run.text).flatten ≠ ['*', '*'] :=
  ⟨rfl, rfl, by decide⟩

/-- C8: `clean_text` never returns a newline: the `\n+` whitespace pass has
replaced every newline run with a space before the duplicate-line-removal
step, so that step sees a single line and removes nothing (`clean_text`
equals its pre-dedup pipeline), and the text either branch of `extract_text`
returns is a single line. -/
theorem claim_C8_single_line :
    (∀ s : List Char, '\n' ∉ clean_text s ∧ clean_text s = cleanTextPre s)
      ∧ ∀ (path : List Char) (env : ExtractEnv), '\n' ∉ (extract_text path env).1 := by
  refine ⟨fun s => ⟨clean_text_noNl s, clean_text_eq_pre s⟩, fun path env => ?_⟩
  rw [extract_text]
  split
  · rcases hp : env.pdfOpen with e | pages
    · simp [hp]
    · rcases hc : pdfCollect pages with e | text
      · simp [hp, hc]
      · simp only [hp, hc]
        exact clean_text_noNl text
  · rcases hd : env.docxOpen with e | doc
    · simp [hd]
    · simp only [hd]
      exact clean_text_noNl _

/-- C5: `extract_text` takes the pdf branch exactly when the lower-cased path
ends with ".pdf" and the Word branch on every other path; there is no third
branch, and each branch finishes through `clean_text`
(see `extractPdfBranch` / `extractDocxBranch`). -/
theorem claim_C5_dispatch (path : List Char) (env : ExtractEnv) :
    extract_text path env =
      if ends ".pdf".toList (path.map Char.toLower) then extractPdfBranch env
      else extractDocxBranch env := by
  rw [extract_text, extractPdfBranch, extractDocxBranch]

/-- C6: one invocation of `summarize_with_gemini` issues exactly one request
— its request log is the single prompt built from the input — whatever the
call's outcome: no retry after a failure and no second call. -/
theorem claim_C6_one_request (text : List Char)
    (respond : List Char → Except (List Char) (List Char)) :
    (summarize_with_gemini text respond).2 = [promptText (preprocessResume text)] := rfl

/-- The response-parsing behaviour in the words of the amended C2 claim
(spec side, for the refinement comparison): a successfully parsed JSON
object is returned with its string values unescaped and stripped; any other
outcome — parse failure or a non-object parse — takes the regex fallback. -/
def specResponseParse (respText : List Char) : List (List Char × PyVal) :=
  match jsonLoads (stripChars respText) with
  | some (.dict es) => es.map fun kv => (kv.1, unescapeVal kv.2)
  | _ => regexFallback (stripChars respText)

/-- C2 (amended): `summarize_with_gemini` parses the (stripped) response by
`json.loads`; when that succeeds with an object it returns it with each
string value's literal backslash-n replaced by a newline and stripped;
otherwise — `json.loads` raising, or the parsed value not being a dict (so
`data.items()` raises) — it returns the regex fallback mapping with the same
per-value processing. -/
theorem claim_C2_parse (r : List Char) (text : List Char)
    (respond : List Char → Except (List Char) (List Char)) :
    parseResponse r = specResponseParse r
      ∧ (summarize_with_gemini text respond).1
          = (respond (promptText (preprocessResume text))).map parseResponse := by
  constructor
  · rw [parseResponse, specResponseParse]
    rcases jsonLoads (stripChars r) with _ | v
    · rfl
    · rcases v <;> rfl
  · rw [summarize_with_gemini]
    rcases hr : respond (promptText (preprocessResume text)) with e | res <;>
      simp [hr, Except.map]

/-- C2 counterexample: on the response `"[]"` `json.loads` succeeds (with a
list), but the function returns the regex-fallback mapping, not the parsed
object — the parsed value is not even an object. -/
theorem claim_C2_cex :
    jsonLoads (stripChars ['[', ']']) = some (PyVal.arr [])
      ∧ parseResponse ['[', ']'] = regexFallback (stripChars ['[', ']'])
      ∧ PyVal.arr [] ≠ PyVal.dict [] :=
  ⟨rfl, rfl, fun h => PyVal.noConfusion h⟩

/-- The eight prompt fields of the spec. -/
def fixedFields : List (List Char) :=
  ["name", "role", "location", "profile_overview", "professional_experience",
   "skills", "domain_experience", "education_and_certification"].map String.toList

/-- C3 (amended): the keys of the mapping `summarize_with_gemini` returns are
exactly the keys found in the response — the parsed object's keys when
`json.loads` yields a dict, the regex-captured keys otherwise; the eight
fixed fields are requested by the prompt but not enforced by the parser. -/
theorem claim_C3_keys (r : List Char) :
    (parseResponse r).map Prod.fst
      = match jsonLoads (stripChars r) with
        | some (.dict es) => es.map Prod.fst
        | _ => (regexFallback (stripChars r)).map Prod.fst := by
  rw [parseResponse]
  rcases jsonLoads (stripChars r) with _ | v
  · rfl
  · rcases v <;> simp [List.map_map, Function.comp_def]

/-- C3 counterexample: the empty-object response yields a mapping with no
keys at all, not the eight fixed fields. -/
theorem claim_C3_cex :
    (parseResponse ['{', '}']).map Prod.fst = [] ∧ ([] : List (List Char)) ≠ fixedFields :=
  ⟨rfl, by decide⟩

/-- C4 (amended): `extract_text` is total at its interface — a failure of the
pdf open, of a page extraction, or of the docx open is caught, surfaces the
`st.error` message and returns the empty string — but a failure of the
header/footer (sections) access is silently swallowed by the inner
`except: pass` (extraction continues with no message), and the pipeline's
later summarization step is not guarded at all: a failing model call
propagates out of `summarize_with_gemini` instead of being converted to an
error message (only JSON parsing has an in-function fallback). -/
theorem claim_C4_error_handling :
    (∀ (path : List Char) (env : ExtractEnv) (e : List Char),
        ends ".pdf".toList (path.map Char.toLower) = true → env.pdfOpen = .error e →
          extract_text path env = ([], [errMsg e]))
    ∧ (∀ (path : List Char) (env : ExtractEnv) pages (e : List Char),
        ends ".pdf".toList (path.map Char.toLower) = true → env.pdfOpen = .ok pages →
          pdfCollect pages = .error e → extract_text path env = ([], [errMsg e]))
    ∧ (∀ (path : List Char) (env : ExtractEnv) (e : List Char),
        ends ".pdf".toList (path.map Char.toLower) = false → env.docxOpen = .error e →
          extract_text path env = ([], [errMsg e]))
    ∧ (∀ (paras : List (List Char)) (tables : List (List (List (List Char))))
        (e : List Char),
        docxFullText ⟨paras, tables, .error e⟩
          = (paras.filter fun t => !(stripChars t).isEmpty)
            ++ (tables.flatten.flatten.filter fun t => !(stripChars t).isEmpty))
    ∧ (∀ (text e : List Char),
        (summarize_with_gemini text (fun _ => .error e)).1 = .error e) := by
  refine ⟨?_, ?_, ?_, ?_, ?_⟩
  · intro path env e hpdf he
    simp only [extract_text, if_pos hpdf, he]
  · intro path env pages e hpdf he hc
    simp only [extract_text, if_pos hpdf, he, hc]
  · intro path env e hpdf he
    have hpdf' : ¬ (ends ".pdf".toList (path.map Char.toLower) = true) := by
      rw [hpdf]; exact Bool.false_ne_true
    simp only [extract_text, if_neg hpdf', he]
  · intro paras tables e
    simp [docxFullText]
  · intro text e
    rfl

/-- C4 counterexample: a docx whose sections access raises is not reported
and does not produce the empty string (the claim says any raising step
surfaces a message and yields `""`), and a failing model call propagates out
of `summarize_with_gemini` instead of surfacing a message. -/
theorem claim_C4_cex :
    extract_text "f.docx".toList
        ⟨.error "unused".toList, .ok ⟨[['x']], [], .error "sections".toList⟩⟩
      = (['x'], [])
    ∧ (['x'] : List Char) ≠ []
    ∧ (summarize_with_gemini ['h'] (fun _ => .error ['b'])).1 = .error ['b'] :=
  ⟨rfl, by decide, rfl⟩

/-- C4 witness: the amended theorem applied at concrete failing environments
(a pdf whose open raises, and a model call that fails). -/
theorem claim_C4_witness :
    extract_text "r.pdf".toList ⟨.error ['E'], .ok ⟨[], [], .ok []⟩⟩ = ([], [errMsg ['E']])
    ∧ (summarize_with_gemini ['t'] (fun _ => .error ['F'])).1 = .error ['F'] :=
  ⟨claim_C4_error_handling.1 "r.pdf".toList ⟨.error ['E'], .ok ⟨[], [], .ok []⟩⟩ ['E']
      (by decide) rfl,
    claim_C4_error_handling.2.2.2.2 ['t'] ['F']⟩

theorem fitFontSize_eq (tc : Nat) : fitFontSize 11 9 tc = if 800 < tc then 9 else 11 := by
  simp only [fitFontSize, shrinkNum]
  split_ifs <;> first | rfl | omega

/-- C7: with the default bounds, `auto_fit_text` sets every run's font size
to `max(9, int(11·s))` where the shrink factor s is 1.0, 0.9, 0.8 or 0.7
according to whether the total character count exceeds 800, 1200 or 1600;
the size is always between 9 and 11 points and non-increasing in the
character count. -/
theorem claim_C7_auto_fit :
    (∀ tf : TextFrame, (auto_fit_text 11 9 tf).paragraphs.map (fun p => p.runs.map Run.size)
        = tf.paragraphs.map fun p => p.runs.map fun _ =>
            some (max 9 (11 * shrinkNum (totalChars tf) / 10)))
    ∧ (∀ tc, shrinkNum tc
        = if tc > 1600 then 7 else if tc > 1200 then 8 else if tc > 800 then 9 else 10)
    ∧ (∀ tc, 9 ≤ fitFontSize 11 9 tc ∧ fitFontSize 11 9 tc ≤ 11)
    ∧ (∀ tc tc', tc ≤ tc' → fitFontSize 11 9 tc' ≤ fitFontSize 11 9 tc) := by
  refine ⟨fun tf => ?_, fun tc => rfl, fun tc => ?_, fun tc tc' h => ?_⟩
  · simp only [auto_fit_text, List.map_map, Function.comp_def, fitFontSize]
  · rw [fitFontSize_eq]; split <;> omega
  · rw [fitFontSize_eq, fitFontSize_eq]; split_ifs <;> omega

/-- C7 witness: the monotonicity conjunct applied at a concrete pair of
character counts, and the size formula at a concrete frame. -/
theorem claim_C7_witness :
    (0 : Nat) ≤ 1000 ∧ fitFontSize 11 9 1000 ≤ fitFontSize 11 9 0 :=
  ⟨by decide, claim_C7_auto_fit.2.2.2 0 1000 (by decide)⟩

theorem foldl_fillStep_id {tf : TextFrame} : ∀ {data : List (List Char × List Char)},
    (∀ kv ∈ data, hasSub (placeholderOf kv.1) (tfText tf) = false) →
      data.foldl fillStep tf = tf := by
  intro data
  induction data with
  | nil => intro _; rfl
  | cons kv rest ih =>
    intro h
    rw [List.foldl_cons]
    have h1 : fillStep tf kv = tf := by
      rw [fillStep, if_neg]
      rw [h kv (List.mem_cons_self _ _)]
      exact Bool.false_ne_true
    rw [h1]
    exact ih fun kv2 hm => h kv2 (List.mem_cons_of_mem _ hm)

/-- C10: `fill_ppt_template` maps over every slide's shapes; a shape with no
text frame is left unchanged, and so is a text box whose text contains no
placeholder of any key of the data — only placeholder-bearing boxes are
rewritten. -/
theorem claim_C10_untouched :
    (∀ (data : List (List Char × List Char)) (s : Shape),
        s.hasTextFrame = false → fillShape data s = s)
    ∧ (∀ (data : List (List Char × List Char)) (s : Shape),
        (∀ kv ∈ data, hasSub (placeholderOf kv.1) (shapeText s) = false) →
          fillShape data s = s)
    ∧ (∀ (data : List (List Char × List Char)) (prs : List (List Shape)),
        fill_ppt_template data prs = prs.map fun slide => slide.map (fillShape data)) := by
  refine ⟨fun data s hs => ?_, fun data s hs => ?_, fun data prs => rfl⟩
  · rw [fillShape, if_neg]
    rw [hs]
    exact Bool.false_ne_true
  · rw [fillShape]
    split
    · rw [foldl_fillStep_id hs]
    · rfl

/-- C10 witness: the theorem applied to a concrete frameless shape and to a
concrete placeholder-free text box. -/
theorem claim_C10_witness :
    fillShape [(['a'], ['v'])] ⟨false, ⟨[], Option.none, false⟩⟩
        = ⟨false, ⟨[], Option.none, false⟩⟩
    ∧ fillShape [(['a'], ['v'])]
        ⟨true, ⟨[⟨[⟨['h', 'i'], Option.none, Option.none, Option.none, Option.none⟩],
          Option.none⟩], Option.none, false⟩⟩
      = ⟨true, ⟨[⟨[⟨['h', 'i'], Option.none, Option.none, Option.none, Option.none⟩],
          Option.none⟩], Option.none, false⟩⟩ :=
  ⟨claim_C10_untouched.1 _ _ rfl, claim_C10_untouched.2.1 _ _ (by decide)⟩

theorem intercalateNl_nil_cons {ls : List (List Char)} (h : ls ≠ []) :
    intercalateNl ([] :: ls) = '\n' :: intercalateNl ls := by
  rcases ls with _ | ⟨l, ls⟩
  · exact absurd rfl h
  · rfl

/-- C1 (amended): `fill_ppt_template` runs the key loop over every text box;
each iteration whose key's placeholder (the upper-cased key in double curly
braces) occurs in the box's current text replaces every occurrence of that
placeholder with the value and rebuilds the box as an empty first paragraph
(the one `tf.clear()` keeps) followed by one paragraph per line of the
substituted text, whose runs are `apply_bold_markdown`'s: each piece starting
and ending with `**` becomes a bold run with the markers stripped and every
other piece a plain run.  The box's text after such a step is therefore a
newline followed by the substituted text with the bold markers consumed;
later keys are matched against this rebuilt text, so each substitution adds
one leading empty line, and bold marks of an earlier pass do not survive a
later rewrite. -/
theorem claim_C1_substitution :
    (∀ (data : List (List Char × List Char)) (prs : List (List Shape)),
        fill_ppt_template data prs = prs.map fun slide => slide.map (fillShape data))
    ∧ (∀ (data : List (List Char × List Char)) (tf : TextFrame),
        fillShape data ⟨true, tf⟩ = ⟨true, data.foldl fillStep tf⟩)
    ∧ ∀ (tf : TextFrame) (k v : List Char),
        hasSub (placeholderOf k) (tfText tf) = true →
        ((fillStep tf (k, v)).paragraphs.map fun p => p.runs.map fun r => (r.text, r.bold))
            = [] :: (splitNl (replaceLit '{' ((placeholderOf k).drop 1) v (tfText tf))).map
                (fun line => (boldParts line).map fun p =>
                  (if wrapped p then dropWrap p else p,
                   if wrapped p then some true else Option.none))
          ∧ tfText (fillStep tf (k, v))
              = '\n' :: intercalateNl
                  ((splitNl (replaceLit '{' ((placeholderOf k).drop 1) v (tfText tf))).map
                    fun line => ((boldParts line).map
                      fun p => if wrapped p then dropWrap p else p).flatten) := by
  refine ⟨fun data prs => rfl, fun data tf => rfl, fun tf k v h => ?_⟩
  rw [fillStep, if_pos h]
  constructor
  · simp only [auto_fit_text, List.map_cons, List.map_map, Function.comp_def, List.map_nil]
    have hline : ∀ x : List Char,
        (apply_bold_markdown x).map (fun r => ((formatRun k r).text, (formatRun k r).bold))
          = (boldParts x).map fun p =>
              (if wrapped p then dropWrap p else p,
               if wrapped p then some true else Option.none) := by
      intro x
      rw [apply_bold_markdown, List.map_map]
      have hcomp : ((fun r => ((formatRun k r).text, (formatRun k r).bold)) ∘ fun p =>
          if wrapped p then ({ text := dropWrap p, bold := some true } : Run)
          else { text := p }) = fun p =>
            (if wrapped p then dropWrap p else p,
             if wrapped p then some true else Option.none) := by
        funext p
        by_cases hw : wrapped p <;> simp [hw, formatRun]
      rw [hcomp]
    simp only [hline]
  · simp only [tfText, auto_fit_text, List.map_cons, List.map_map, Function.comp_def,
      List.map_nil, paraText]
    have hpara : ∀ x : List Char,
        ((apply_bold_markdown x).map fun r => (formatRun k r).text).flatten
          = ((boldParts x).map fun p => if wrapped p then dropWrap p else p).flatten := by
      intro x
      rw [apply_bold_markdown, List.map_map]
      have hcomp2 : ((fun r => (formatRun k r).text) ∘ fun p =>
          if wrapped p then ({ text := dropWrap p, bold := some true } : Run)
          else { text := p }) = fun p => if wrapped p then dropWrap p else p := by
        funext p
        by_cases hw : wrapped p <;> simp [hw, formatRun]
      rw [hcomp2]
    simp only [hpara, List.flatten_nil]
    rw [intercalateNl_nil_cons (by
      intro hmap
      exact splitNl_ne_nil _ (List.map_eq_nil_iff.1 hmap))]

/-- A one-run text box holding `"{{A}} {{B}}"`, for the C1 counterexample. -/
def cexShape : Shape :=
  ⟨true, ⟨[⟨[⟨['{', '{', 'A', '}', '}', ' ', '{', '{', 'B', '}', '}'], Option.none,
    Option.none, Option.none, Option.none⟩], Option.none⟩], Option.none, false⟩⟩

/-- C1 counterexample: a box containing `{{A}} {{B}}` filled with
`a ↦ "**x**"`, `b ↦ "y"` ends as the text `"\n\nx y"` — two leading empty
lines, not the substituted text — and carries no bold run although the first
value was a `**...**` span; the claim predicts the text `"x y"` with `x`
bold. -/
theorem claim_C1_cex :
    ((fill_ppt_template [(['a'], "**x**".toList), (['b'], ['y'])] [[cexShape]]).map
        fun slide => slide.map shapeText) = [[['\n', '\n', 'x', ' ', 'y']]]
    ∧ ((fill_ppt_template [(['a'], "**x**".toList), (['b'], ['y'])] [[cexShape]]).map
        fun slide => slide.map fun s => s.tf.paragraphs.map fun p => p.runs.map Run.bold)
        = [[[[], [Option.none], [Option.none]]]]
    ∧ ['\n', '\n', 'x', ' ', 'y'] ≠ ['x', ' ', 'y'] :=
  ⟨rfl, rfl, by decide⟩

/-- A one-run text box holding `"{{A}}"`, for the C1 witness. -/
def witShape : TextFrame :=
  ⟨[⟨[⟨['{', '{', 'A', '}', '}'], Option.none, Option.none, Option.none, Option.none⟩],
    Option.none⟩], Option.none, false⟩

/-- C1 witness: the amended theorem applied to a concrete box containing
`{{A}}` and the pair `a ↦ "z"`. -/
theorem claim_C1_witness :
    hasSub (placeholderOf ['a']) (tfText witShape) = true
    ∧ ((fillStep witShape (['a'], ['z'])).paragraphs.map
          fun p => p.runs.map fun r => (r.text, r.bold))
        = [] :: (splitNl (replaceLit '{' ((placeholderOf ['a']).drop 1) ['z']
            (tfText witShape))).map
            (fun line => (boldParts line).map fun p =>
              (if wrapped p then dropWrap p else p,
               if wrapped p then some true else Option.none))
    ∧ tfText (fillStep witShape (['a'], ['z']))
        = '\n' :: intercalateNl
            ((splitNl (replaceLit '{' ((placeholderOf ['a']).drop 1) ['z']
              (tfText witShape))).map
              fun line => ((boldParts line).map
                fun p => if wrapped p then dropWrap p else p).flatten) :=
  ⟨by decide, (claim_C1_substitution.2.2 witShape ['a'] ['z'] (by decide)).1,
    (claim_C1_substitution.2.2 witShape ['a'] ['z'] (by decide)).2⟩

end ResumeSummarizer
